import Mathlib

/-!
A verification development for the frame-handling core of the repository:
the `VisionAssistant` agent defined in `src/agents/vision_agent.py` and its
near-duplicate in `src/agents/example_agent.py`.  The agent keeps a single
latest-frame slot (`self._latest_frame`), a current video stream
(`self._video_stream`) and a task list (`self._tasks`); a background ingest
task (`read_stream`) consumes frame events from the stream and overwrites
the slot, and the turn hook (`on_user_turn_completed`) attaches the held
frame (or, in the example variant, a fallback advisory string) to the
outgoing chat message.

The agent code runs on a cooperative single-threaded asyncio event loop, so
the embedding models that loop explicitly: a FIFO ready queue of scheduled
task steps, and per-task records with a cancel flag.  Calling `cancel` on a
live asyncio task either cancels the future it is awaiting (scheduling a
wakeup that raises the cancel error inside the coroutine at its suspension
point) or, when a wakeup is already scheduled, sets a must-cancel flag that
is consumed at the task's next step before any code of the loop body runs;
both routes are modelled by the `cancelled` flag plus a `cancelWake` queue
item.  Done callbacks registered with `add_done_callback` are scheduled on
the same FIFO queue when a task completes.  Ingest tasks are identified by
their index in `taskRec`, the list of all task records ever created, so
task ids increase in creation order.  The `writes` field is a pure history
variable recording every completed write to the latest-frame slot, in
order, tagged with the writing task; `ingestedTracks` likewise records the
tracks handed to `_create_video_stream`.  Neither influences any operation.

Every operation is executable, so concrete traces evaluate by `decide`.
-/

namespace DotSpot

/-- A decoded video frame (`rtc.VideoFrame`), identified by a tag; its
pixel contents are irrelevant to the frame-handling logic. -/
structure Frame where
  id : Nat
deriving DecidableEq, Repr

/-- Track kinds, as in `rtc.TrackKind`; only the video/non-video
distinction matters to the agent. -/
inductive TrackKind where
  | video
  | audio
deriving DecidableEq, Repr

/-- A published media track (`rtc.Track`). -/
structure Track where
  id : Nat
  kind : TrackKind
deriving DecidableEq, Repr

/-- The execution phase of one asyncio task running `read_stream`:
not yet started (first step still queued), suspended at the `async for`
await on a given stream, or completed (normally, by cancel, or with an
uncaught exception from the event source). -/
inductive TaskPhase where
  | notStarted
  | suspended (stream : Nat)
  | doneOk
  | doneCancelled
  | doneError
deriving DecidableEq, Repr

/-- True exactly when the phase is a completed one (`task.done()`). -/
def isDone : TaskPhase → Bool
  | TaskPhase.doneOk => true
  | TaskPhase.doneCancelled => true
  | TaskPhase.doneError => true
  | _ => false

/-- The record the event-loop model keeps for one ingest task. -/
structure TaskRec where
  phase : TaskPhase
  cancelled : Bool
deriving DecidableEq, Repr

/-- One scheduled step in the event loop's FIFO ready queue: the first run
of a task, resumption with a frame, end or error of the stream delivered at
the await, delivery of the cancel error, or a done callback. -/
inductive Payload where
  | start
  | frame (f : Frame)
  | streamClosed
  | streamError
  | cancelWake
  | doneCb
deriving DecidableEq, Repr

/-- The whole modelled state: the three fields of `VisionAssistant`
(`_latest_frame`, `_video_stream` as a stream id, `_tasks` as task ids),
the event-loop bookkeeping (`taskRec`, `ready`), the fresh-id counter for
streams, and two pure history variables (`writes`, `ingestedTracks`). -/
structure AgentState where
  latestFrame : Option Frame
  videoStream : Option Nat
  tasks : List Nat
  taskRec : List TaskRec
  ready : List (Nat × Payload)
  nextStreamId : Nat
  writes : List (Nat × Frame)
  ingestedTracks : List Track
deriving DecidableEq, Repr

/-- The state right after `VisionAssistant.__init__`: empty slot, no
stream, no tasks. -/
def initState : AgentState :=
  { latestFrame := none
    videoStream := none
    tasks := []
    taskRec := []
    ready := []
    nextStreamId := 0
    writes := []
    ingestedTracks := [] }

/-- The effect of `task.cancel()` guarded by `if not task.done()`, as in
the loop of `_create_video_stream`: a completed task is left alone; a live
task gets its cancel flag set, and if no step for it is queued (it is
parked at an await on a pending future) the cancel of that future schedules
a wakeup that will deliver the cancel error. -/
def cancelTask (tid : Nat) (s : AgentState) : AgentState :=
  match s.taskRec[tid]? with
  | none => s
  | some r =>
    if isDone r.phase then s
    else if s.ready.any (fun ip => ip.1 == tid) then
      { s with taskRec := s.taskRec.set tid { r with cancelled := true } }
    else
      { s with taskRec := s.taskRec.set tid { r with cancelled := true }
               ready := s.ready ++ [(tid, Payload.cancelWake)] }

/-- Completion of a task with the given final phase; the done callback
registered by `_create_video_stream` is scheduled on the ready queue. -/
def finishTask (tid : Nat) (ph : TaskPhase) (s : AgentState) : AgentState :=
  match s.taskRec[tid]? with
  | none => s
  | some r =>
    { s with taskRec := s.taskRec.set tid { r with phase := ph }
             ready := s.ready ++ [(tid, Payload.doneCb)] }

/-- The cancel loop of `_create_video_stream`:
`for task in self._tasks: if not task.done(): task.cancel()`. -/
def cancelAll (l : List Nat) (s : AgentState) : AgentState :=
  l.foldl (fun acc tid => cancelTask tid acc) s

/-- `VisionAssistant._create_video_stream`, line for line: if a stream
already exists, cancel every not-done task in `self._tasks` and clear the
list; then install a fresh `rtc.VideoStream` for the track, create the
`read_stream` task (its first step goes to the back of the ready queue),
register its done callback, and append it to `self._tasks`. -/
def createVideoStream (track : Track) (s : AgentState) : AgentState :=
  let s1 :=
    if s.videoStream.isSome then
      { cancelAll s.tasks s with tasks := [] }
    else s
  let st := s1.nextStreamId
  let s2 := { s1 with videoStream := some st
                      nextStreamId := st + 1
                      ingestedTracks := s1.ingestedTracks ++ [track] }
  let tid := s2.taskRec.length
  { s2 with taskRec := s2.taskRec ++ [{ phase := TaskPhase.notStarted, cancelled := false }]
            ready := s2.ready ++ [(tid, Payload.start)]
            tasks := s2.tasks ++ [tid] }

/-- One step of the task `tid` with the dequeued payload, following the
body of `read_stream` and asyncio task semantics.  A done callback runs
unconditionally and removes the task from `self._tasks` if present.  For
any other payload, a task flagged for cancel completes with the cancel
error before any body code runs.  The first step resolves
`self._video_stream` and suspends at the `async for` (the guard branch for
a missing stream, present in the example variant, completes the task);
a delivered frame executes the loop body, which writes the slot
(`self._latest_frame = event.frame`) and suspends again; end of stream
leaves the loop normally; an event-source error propagates out of
`read_stream`, which has no handler for it, completing the task with the
error stored in it (nothing ever awaits or reads these tasks, so the error
reaches no other component). -/
def runItem (tid : Nat) (p : Payload) (s : AgentState) : AgentState :=
  match p with
  | Payload.doneCb => { s with tasks := s.tasks.erase tid }
  | _ =>
    match s.taskRec[tid]? with
    | none => s
    | some r =>
      if isDone r.phase then s
      else if r.cancelled then finishTask tid TaskPhase.doneCancelled s
      else
        match p with
        | Payload.start =>
          match s.videoStream with
          | none => finishTask tid TaskPhase.doneOk s
          | some st =>
            { s with taskRec := s.taskRec.set tid { r with phase := TaskPhase.suspended st } }
        | Payload.frame f =>
          match r.phase with
          | TaskPhase.suspended _ =>
            { s with latestFrame := some f, writes := s.writes ++ [(tid, f)] }
          | _ => s
        | Payload.streamClosed => finishTask tid TaskPhase.doneOk s
        | Payload.streamError => finishTask tid TaskPhase.doneError s
        | Payload.cancelWake => finishTask tid TaskPhase.doneCancelled s
        | Payload.doneCb => s

/-- One iteration of the event loop: pop the head of the FIFO ready queue
and run it. -/
def runReady (s : AgentState) : AgentState :=
  match s.ready with
  | [] => s
  | (tid, p) :: rest => runItem tid p { s with ready := rest }

/-- The task, if any, parked at the await on stream `st` and able to
receive an event there: suspended on `st`, not cancelled, and with no step
already scheduled for it. -/
def waitingTask (s : AgentState) (st : Nat) : Option Nat :=
  (List.range s.taskRec.length).find? fun i =>
    match s.taskRec[i]? with
    | some r =>
      decide (r.phase = TaskPhase.suspended st) && !r.cancelled
        && !(s.ready.any (fun ip => ip.1 == i))
    | none => false

/-- An event emitted by one video stream's frame-event source: a frame, the
end of the stream, or an error from the source. -/
inductive StreamEv where
  | frame (f : Frame)
  | closed
  | error
deriving DecidableEq, Repr

/-- The ready-queue payload delivering a stream event at the await. -/
def payloadOfStreamEv : StreamEv → Payload
  | StreamEv.frame f => Payload.frame f
  | StreamEv.closed => Payload.streamClosed
  | StreamEv.error => Payload.streamError

/-- Delivery of a stream event to whichever task is parked at the await on
that stream: the event resolves the awaited future, scheduling the task's
resumption at the back of the ready queue.  With no receiver the event has
no effect on the agent. -/
def deliverStream (st : Nat) (d : StreamEv) (s : AgentState) : AgentState :=
  match waitingTask s st with
  | none => s
  | some tid => { s with ready := s.ready ++ [(tid, payloadOfStreamEv d)] }

/-- A remote track publication (`rtc.RemoteTrackPublication`): its `track`
attribute may be unset. -/
structure Publication where
  track : Option Track
deriving DecidableEq, Repr

/-- A remote participant with its track publications, in order. -/
structure Participant where
  id : Nat
  pubs : List Publication
deriving DecidableEq, Repr

/-- The room contents visible at session entry. -/
structure RoomSnapshot where
  remoteParticipants : List Participant
deriving DecidableEq, Repr

/-- The video-track selection of `on_enter`: the publications of one
participant whose `track` is set and of video kind. -/
def videoTracks (p : Participant) : List Track :=
  (p.pubs.filterMap Publication.track).filter fun t => decide (t.kind = TrackKind.video)

/-- `VisionAssistant.on_enter`: if any remote participant is present, take
the first one, collect its qualifying video tracks, and if that list is
nonempty start an ingest on its first element.  (The handler registration
that follows in the source is modelled by the `trackSub` event below.) -/
def onEnter (room : RoomSnapshot) (s : AgentState) : AgentState :=
  match room.remoteParticipants with
  | [] => s
  | p :: _ =>
    match videoTracks p with
    | [] => s
    | t :: _ => createVideoStream t s

/-- The `on_track_subscribed` handler registered in `on_enter`: a video
track starts a (replacing) ingest, anything else does nothing. -/
def onTrackSubscribed (t : Track) (s : AgentState) : AgentState :=
  if t.kind = TrackKind.video then createVideoStream t s else s

/-- `VisionAssistant` overrides no teardown hook: neither agent file
defines an exit handler, and no code in the repository resets
`_latest_frame`, `_video_stream` or `_tasks` after `__init__`, so the
inherited default leaves the modelled state untouched when the session
ends. -/
def onSessionTeardown (s : AgentState) : AgentState := s

/-- One content item of a chat message: attached visual content
(`ChatImage` in the vision variant, `ImageContent` in the example variant)
or a plain string. -/
inductive ContentItem where
  | image (f : Frame)
  | text (msg : String)
deriving DecidableEq, Repr

/-- The outgoing user-turn message (`llm.ChatMessage`), reduced to its
content list. -/
structure ChatMessage where
  content : List ContentItem
deriving DecidableEq, Repr

/-- The advisory string `on_user_turn_completed` of the example variant
appends when no frame is held. -/
def fallbackAdvisory : String :=
  "[SYSTEM: No video frame available. The user\x27s camera feed is not currently streaming. Please inform them that you cannot see their camera at the moment.]"

/-- `on_user_turn_completed` of `src/agents/vision_agent.py`: with a held
frame, append it as image content; otherwise only a debug log line runs and
the message is left as it is.  The method assigns no attribute, so the
agent state is returned unchanged. -/
def onUserTurnCompletedVision (s : AgentState) (m : ChatMessage) :
    AgentState × ChatMessage :=
  match s.latestFrame with
  | some f => (s, { m with content := m.content ++ [ContentItem.image f] })
  | none => (s, m)

/-- `on_user_turn_completed` of `src/agents/example_agent.py`: with a held
frame, append it as image content; otherwise append the fallback advisory
string.  The method assigns no attribute, so the agent state is returned
unchanged. -/
def onUserTurnCompletedExample (s : AgentState) (m : ChatMessage) :
    AgentState × ChatMessage :=
  match s.latestFrame with
  | some f => (s, { m with content := m.content ++ [ContentItem.image f] })
  | none => (s, { m with content := m.content ++ [ContentItem.text fallbackAdvisory] })

/-- The events driving the modelled system: session entry with a room
snapshot, a track-subscribed notification, a stream event from a frame
source, one event-loop iteration, and session teardown. -/
inductive Ev where
  | enter (room : RoomSnapshot)
  | trackSub (t : Track)
  | stream (st : Nat) (d : StreamEv)
  | loopStep
  | teardown
deriving DecidableEq, Repr

/-- The transition function of the modelled system. -/
def stepFn (e : Ev) (s : AgentState) : AgentState :=
  match e with
  | Ev.enter room => onEnter room s
  | Ev.trackSub t => onTrackSubscribed t s
  | Ev.stream st d => deliverStream st d s
  | Ev.loopStep => runReady s
  | Ev.teardown => onSessionTeardown s

/-- The state reached from `initState` by a sequence of events.  Every
reachable state of the system is `run evs` for some event list. -/
def run (evs : List Ev) : AgentState :=
  evs.foldl (fun s e => stepFn e s) initState

/-- Task `i` is live (not completed) and not flagged for cancel. -/
def luAt (s : AgentState) (i : Nat) : Bool :=
  match s.taskRec[i]? with
  | some r => !isDone r.phase && !r.cancelled
  | none => false

/-- The number of ingest tasks created so far that have not terminated. -/
def aliveCount (s : AgentState) : Nat :=
  (s.taskRec.filter fun r => !isDone r.phase).length

/-- Task `i` is recorded as completed. -/
def doneAt (s : AgentState) (i : Nat) : Bool :=
  match s.taskRec[i]? with
  | some r => isDone r.phase
  | none => false

/-- A sample video track, as published by a camera. -/
def vtrackA : Track := { id := 1, kind := TrackKind.video }

/-- A second sample video track, replacing the first. -/
def vtrackB : Track := { id := 2, kind := TrackKind.video }

/-- A sample non-video track (a microphone). -/
def audioTrack : Track := { id := 3, kind := TrackKind.audio }

/-- A sample frame. -/
def frame5 : Frame := { id := 5 }

/-- Another sample frame. -/
def frame7 : Frame := { id := 7 }

/-- A concrete trace: one video track subscribed, its ingest task started
and suspended at the await, one frame delivered and written.  The ingest is
still active at the end and the slot holds `frame5`. -/
def c6Trace : List Ev :=
  [Ev.trackSub vtrackA, Ev.loopStep,
   Ev.stream 0 (StreamEv.frame frame5), Ev.loopStep]

/-- A concrete reachable state whose single ingest task (id 0) is
suspended at the await on stream 0, uncancelled. -/
def c7State : AgentState := run [Ev.trackSub vtrackA, Ev.loopStep]

/-- A room snapshot at session entry: the first remote participant
publishes only an audio track, the second one publishes a video track. -/
def c8Room : RoomSnapshot :=
  { remoteParticipants :=
      [ { id := 0, pubs := [{ track := some audioTrack }] },
        { id := 1, pubs := [{ track := some vtrackB }] } ] }

/-- A concrete trace with a track replacement: track A's ingest writes
`frame5`, then track B is subscribed (cancelling the first ingest), B's
ingest starts and writes `frame7`. -/
def writesTrace : List Ev :=
  [Ev.trackSub vtrackA, Ev.loopStep,
   Ev.stream 0 (StreamEv.frame frame5), Ev.loopStep,
   Ev.trackSub vtrackB, Ev.loopStep, Ev.loopStep, Ev.loopStep,
   Ev.stream 1 (StreamEv.frame frame7), Ev.loopStep]

example : aliveCount (run [Ev.trackSub { id := 1, kind := TrackKind.video }]) = 1 := by decide

example :
    (run [Ev.trackSub { id := 1, kind := TrackKind.video }, Ev.loopStep,
          Ev.stream 0 (StreamEv.frame { id := 5 }), Ev.loopStep]).latestFrame
      = some { id := 5 } := by decide

theorem isDone_suspended (st : Nat) : isDone (TaskPhase.suspended st) = false := rfl

theorem isDone_notStarted : isDone TaskPhase.notStarted = false := rfl

theorem luAt_congr (s s' : AgentState) (h : s'.taskRec = s.taskRec) (i : Nat) :
    luAt s' i = luAt s i := by
  unfold luAt
  rw [h]

theorem doneAt_congr (s s' : AgentState) (h : s'.taskRec = s.taskRec) (i : Nat) :
    doneAt s' i = doneAt s i := by
  unfold doneAt
  rw [h]

theorem luAt_false_of_done (s : AgentState) (i : Nat) (r : TaskRec)
    (h : s.taskRec[i]? = some r) (hd : isDone r.phase = true) :
    luAt s i = false := by
  unfold luAt
  rw [h]
  simp [hd]

theorem luAt_false_of_none (s : AgentState) (i : Nat)
    (h : s.taskRec[i]? = none) : luAt s i = false := by
  unfold luAt
  rw [h]

theorem luAt_set_cancelled (s s' : AgentState) (tid : Nat) (r : TaskRec)
    (h : s.taskRec[tid]? = some r)
    (hrec : s'.taskRec = s.taskRec.set tid { r with cancelled := true })
    (i : Nat) :
    luAt s' i = true ↔ (luAt s i = true ∧ i ≠ tid) := by
  unfold luAt
  rw [hrec]
  simp only [List.getElem?_set]
  by_cases hit : tid = i
  · subst hit
    have hlt : tid < s.taskRec.length := (List.getElem?_eq_some.mp h).1
    simp [hlt, h]
  · simp [hit, Ne.symm hit]

theorem cancelTask_empty (tid : Nat) (s : AgentState) (h : s.taskRec = []) :
    cancelTask tid s = s := by
  simp [cancelTask, h]

theorem cancelTask_fields (tid : Nat) (s : AgentState) :
    (cancelTask tid s).latestFrame = s.latestFrame ∧
    (cancelTask tid s).videoStream = s.videoStream ∧
    (cancelTask tid s).tasks = s.tasks ∧
    (cancelTask tid s).nextStreamId = s.nextStreamId ∧
    (cancelTask tid s).writes = s.writes ∧
    (cancelTask tid s).ingestedTracks = s.ingestedTracks ∧
    (cancelTask tid s).taskRec.length = s.taskRec.length := by
  unfold cancelTask
  split
  · simp
  · split
    · simp
    · split <;> simp

theorem cancelTask_phase (tid : Nat) (s : AgentState) (i : Nat) :
    ((cancelTask tid s).taskRec[i]?).map TaskRec.phase
      = (s.taskRec[i]?).map TaskRec.phase := by
  unfold cancelTask
  split
  · rfl
  · next r h =>
    split
    · rfl
    · have hset : ((s.taskRec.set tid { r with cancelled := true })[i]?).map TaskRec.phase
          = (s.taskRec[i]?).map TaskRec.phase := by
        simp only [List.getElem?_set]
        by_cases hit : tid = i
        · subst hit
          have hlt : tid < s.taskRec.length := (List.getElem?_eq_some.mp h).1
          simp [hlt, h]
        · simp [hit]
      split <;> exact hset

theorem cancelTask_doneAt (tid : Nat) (s : AgentState) (i : Nat) :
    doneAt (cancelTask tid s) i = doneAt s i := by
  have hph := cancelTask_phase tid s i
  unfold doneAt
  cases h1 : (cancelTask tid s).taskRec[i]? with
  | none =>
    cases h2 : s.taskRec[i]? with
    | none => rfl
    | some r2 => rw [h1, h2] at hph; simp at hph
  | some r1 =>
    cases h2 : s.taskRec[i]? with
    | none => rw [h1, h2] at hph; simp at hph
    | some r2 =>
      rw [h1, h2] at hph
      simp at hph
      show isDone r1.phase = isDone r2.phase
      rw [hph]

theorem cancelTask_luAt (tid : Nat) (s : AgentState) (i : Nat) :
    luAt (cancelTask tid s) i = true ↔ (luAt s i = true ∧ i ≠ tid) := by
  unfold cancelTask
  split
  · next h =>
    constructor
    · intro hl
      refine ⟨hl, ?_⟩
      intro he
      subst he
      rw [luAt_false_of_none s i h] at hl
      exact Bool.false_ne_true hl
    · exact fun hp => hp.1
  · next r h =>
    split
    · next hd =>
      constructor
      · intro hl
        refine ⟨hl, ?_⟩
        intro he
        subst he
        rw [luAt_false_of_done s i r h hd] at hl
        exact Bool.false_ne_true hl
      · exact fun hp => hp.1
    · split
      · exact luAt_set_cancelled s _ tid r h rfl i
      · exact luAt_set_cancelled s _ tid r h rfl i

theorem cancelTask_ready_sub (tid : Nat) (s : AgentState) :
    ∀ ip ∈ (cancelTask tid s).ready, ip ∈ s.ready ∨ ip.2 = Payload.cancelWake := by
  unfold cancelTask
  split
  · exact fun ip hip => Or.inl hip
  · split
    · exact fun ip hip => Or.inl hip
    · split
      · exact fun ip hip => Or.inl hip
      · intro ip hip
        simp only [List.mem_append, List.mem_singleton] at hip
        cases hip with
        | inl hin => exact Or.inl hin
        | inr hnew => right; rw [hnew]

theorem cancelAll_nil (s : AgentState) : cancelAll [] s = s := rfl

theorem cancelAll_cons (t : Nat) (l : List Nat) (s : AgentState) :
    cancelAll (t :: l) s = cancelAll l (cancelTask t s) := rfl

theorem cancelAll_fields (l : List Nat) (s : AgentState) :
    (cancelAll l s).latestFrame = s.latestFrame ∧
    (cancelAll l s).videoStream = s.videoStream ∧
    (cancelAll l s).tasks = s.tasks ∧
    (cancelAll l s).nextStreamId = s.nextStreamId ∧
    (cancelAll l s).writes = s.writes ∧
    (cancelAll l s).ingestedTracks = s.ingestedTracks ∧
    (cancelAll l s).taskRec.length = s.taskRec.length := by
  induction l generalizing s with
  | nil => exact ⟨rfl, rfl, rfl, rfl, rfl, rfl, rfl⟩
  | cons t l ih =>
    rw [cancelAll_cons]
    have h1 := ih (cancelTask t s)
    have h2 := cancelTask_fields t s
    exact ⟨h1.1.trans h2.1, h1.2.1.trans h2.2.1, h1.2.2.1.trans h2.2.2.1,
      h1.2.2.2.1.trans h2.2.2.2.1, h1.2.2.2.2.1.trans h2.2.2.2.2.1,
      h1.2.2.2.2.2.1.trans h2.2.2.2.2.2.1, h1.2.2.2.2.2.2.trans h2.2.2.2.2.2.2⟩

theorem cancelAll_doneAt (l : List Nat) (s : AgentState) (i : Nat) :
    doneAt (cancelAll l s) i = doneAt s i := by
  induction l generalizing s with
  | nil => rfl
  | cons t l ih =>
    rw [cancelAll_cons]
    exact (ih (cancelTask t s)).trans (cancelTask_doneAt t s i)

theorem cancelAll_luAt (l : List Nat) (s : AgentState) (i : Nat) :
    luAt (cancelAll l s) i = true ↔ (luAt s i = true ∧ i ∉ l) := by
  induction l generalizing s with
  | nil => simp [cancelAll_nil]
  | cons t l ih =>
    rw [cancelAll_cons]
    rw [ih (cancelTask t s)]
    rw [cancelTask_luAt t s i]
    constructor
    · rintro ⟨⟨hl, hne⟩, hnl⟩
      refine ⟨hl, ?_⟩
      intro hm
      cases List.mem_cons.mp hm with
      | inl he => exact hne he
      | inr hin => exact hnl hin
    · rintro ⟨hl, hnm⟩
      exact ⟨⟨hl, fun he => hnm (he ▸ List.mem_cons_self t l)⟩,
        fun hin => hnm (List.mem_cons_of_mem t hin)⟩

theorem cancelAll_ready_sub (l : List Nat) (s : AgentState) :
    ∀ ip ∈ (cancelAll l s).ready, ip ∈ s.ready ∨ ip.2 = Payload.cancelWake := by
  induction l generalizing s with
  | nil => exact fun ip hip => Or.inl hip
  | cons t l ih =>
    rw [cancelAll_cons]
    intro ip hip
    cases ih (cancelTask t s) ip hip with
    | inl hin => exact cancelTask_ready_sub t s ip hin
    | inr hcw => exact Or.inr hcw

theorem cancelAll_empty (l : List Nat) (s : AgentState) (h : s.taskRec = []) :
    cancelAll l s = s := by
  induction l generalizing s with
  | nil => rfl
  | cons t l ih =>
    rw [cancelAll_cons, cancelTask_empty t s h]
    exact ih s h

theorem finishTask_none (tid : Nat) (ph : TaskPhase) (s : AgentState)
    (h : s.taskRec[tid]? = none) : finishTask tid ph s = s := by
  simp [finishTask, h]

theorem finishTask_some (tid : Nat) (ph : TaskPhase) (s : AgentState) (r : TaskRec)
    (h : s.taskRec[tid]? = some r) :
    finishTask tid ph s
      = { s with taskRec := s.taskRec.set tid { r with phase := ph }
                 ready := s.ready ++ [(tid, Payload.doneCb)] } := by
  simp [finishTask, h]

theorem luAt_set_phase (s s' : AgentState) (tid : Nat) (r : TaskRec) (ph : TaskPhase)
    (h : s.taskRec[tid]? = some r) (hph : isDone ph = true)
    (hrec : s'.taskRec = s.taskRec.set tid { r with phase := ph }) (i : Nat) :
    luAt s' i = true ↔ (luAt s i = true ∧ i ≠ tid) := by
  unfold luAt
  rw [hrec]
  simp only [List.getElem?_set]
  by_cases hit : tid = i
  · subst hit
    have hlt : tid < s.taskRec.length := (List.getElem?_eq_some.mp h).1
    simp [hlt, h, hph]
  · simp [hit, Ne.symm hit]

theorem doneAt_set_phase (s s' : AgentState) (tid : Nat) (r : TaskRec) (ph : TaskPhase)
    (h : s.taskRec[tid]? = some r) (hph : isDone ph = true)
    (hrec : s'.taskRec = s.taskRec.set tid { r with phase := ph }) (i : Nat) :
    (doneAt s i = true → doneAt s' i = true) ∧ doneAt s' tid = true := by
  unfold doneAt
  rw [hrec]
  constructor
  · intro hdi
    simp only [List.getElem?_set]
    by_cases hit : tid = i
    · subst hit
      have hlt : tid < s.taskRec.length := (List.getElem?_eq_some.mp h).1
      simp [hlt, hph]
    · simp [hit]
      exact hdi
  · have hlt : tid < s.taskRec.length := (List.getElem?_eq_some.mp h).1
    simp [List.getElem?_set, hlt, hph]

theorem luAt_set_suspended (s s' : AgentState) (tid : Nat) (r : TaskRec) (st : Nat)
    (h : s.taskRec[tid]? = some r) (hd : isDone r.phase = false)
    (hc : r.cancelled = false)
    (hrec : s'.taskRec = s.taskRec.set tid { r with phase := TaskPhase.suspended st })
    (i : Nat) :
    luAt s' i = luAt s i := by
  unfold luAt
  rw [hrec]
  simp only [List.getElem?_set]
  by_cases hit : tid = i
  · subst hit
    have hlt : tid < s.taskRec.length := (List.getElem?_eq_some.mp h).1
    simp [hlt, h, hd, hc, isDone_suspended]
  · simp [hit]

theorem doneAt_set_suspended (s s' : AgentState) (tid : Nat) (r : TaskRec) (st : Nat)
    (h : s.taskRec[tid]? = some r) (hd : isDone r.phase = false)
    (hrec : s'.taskRec = s.taskRec.set tid { r with phase := TaskPhase.suspended st })
    (i : Nat) :
    doneAt s' i = doneAt s i := by
  unfold doneAt
  rw [hrec]
  simp only [List.getElem?_set]
  by_cases hit : tid = i
  · subst hit
    have hlt : tid < s.taskRec.length := (List.getElem?_eq_some.mp h).1
    simp [hlt, h, hd, isDone_suspended]
  · simp [hit]

theorem doneAt_lt (s : AgentState) (i : Nat) (h : doneAt s i = true) :
    i < s.taskRec.length := by
  unfold doneAt at h
  cases hx : s.taskRec[i]? with
  | none => rw [hx] at h; exact absurd h (by simp)
  | some r => exact (List.getElem?_eq_some.mp hx).1

/-- The inductive invariant carried through every reachable state: write
history bounds and ordering, uniqueness of the live uncancelled ingest
task, its dominance over all past writers, its registration in
`self._tasks`, the latest-frame slot holding exactly the last completed
write, triviality of the pre-first-stream state, and soundness of
scheduled done callbacks. -/
structure Inv (s : AgentState) : Prop where
  writersBound : ∀ w ∈ s.writes, w.1 < s.taskRec.length
  atMostOne : ∀ i j, luAt s i = true → luAt s j = true → i = j
  dominance : ∀ i, luAt s i = true → ∀ w ∈ s.writes, w.1 ≤ i
  inTasks : ∀ i, luAt s i = true → i ∈ s.tasks
  sortedWriters : List.Pairwise (fun a b => a ≤ b) (s.writes.map Prod.fst)
  lastWrite : s.latestFrame = (s.writes.map Prod.snd).getLast?
  emptyInit : s.videoStream = none →
    s.taskRec = [] ∧ s.tasks = [] ∧ s.writes = [] ∧ s.ready = []
  doneCbOk : ∀ ip ∈ s.ready, ip.2 = Payload.doneCb → doneAt s ip.1 = true

theorem inv_initState : Inv initState := by
  constructor <;> simp [initState, luAt, doneAt]

theorem inv_cancelTask (tid : Nat) (s : AgentState) (hInv : Inv s) :
    Inv (cancelTask tid s) := by
  obtain ⟨f1, f2, f3, f4, f5, f6, f7⟩ := cancelTask_fields tid s
  constructor
  · intro w hw
    rw [f5] at hw
    rw [f7]
    exact hInv.writersBound w hw
  · intro i j hi hj
    exact hInv.atMostOne i j ((cancelTask_luAt tid s i).mp hi).1
      ((cancelTask_luAt tid s j).mp hj).1
  · intro i hi w hw
    rw [f5] at hw
    exact hInv.dominance i ((cancelTask_luAt tid s i).mp hi).1 w hw
  · intro i hi
    rw [f3]
    exact hInv.inTasks i ((cancelTask_luAt tid s i).mp hi).1
  · rw [f5]
    exact hInv.sortedWriters
  · rw [f1, f5]
    exact hInv.lastWrite
  · intro hvs
    rw [f2] at hvs
    have h0 := hInv.emptyInit hvs
    rw [cancelTask_empty tid s h0.1]
    exact h0
  · intro ip hip hcb
    cases cancelTask_ready_sub tid s ip hip with
    | inl hin =>
      rw [cancelTask_doneAt tid s ip.1]
      exact hInv.doneCbOk ip hin hcb
    | inr hcw =>
      rw [hcb] at hcw
      exact Payload.noConfusion hcw

theorem inv_cancelAll (l : List Nat) (s : AgentState) (hInv : Inv s) :
    Inv (cancelAll l s) := by
  induction l generalizing s with
  | nil => exact hInv
  | cons t l ih =>
    rw [cancelAll_cons]
    exact ih (cancelTask t s) (inv_cancelTask t s hInv)

theorem inv_create_aux (s1 s' : AgentState)
    (erec : s'.taskRec = s1.taskRec ++ [{ phase := TaskPhase.notStarted, cancelled := false }])
    (eready : s'.ready = s1.ready ++ [(s1.taskRec.length, Payload.start)])
    (etasks : s'.tasks = s1.tasks ++ [s1.taskRec.length])
    (ewrites : s'.writes = s1.writes)
    (elf : s'.latestFrame = s1.latestFrame)
    (evs : s'.videoStream = some s1.nextStreamId)
    (hNoLive : ∀ i, luAt s1 i = false)
    (hTasks : s1.tasks = [])
    (hWB : ∀ w ∈ s1.writes, w.1 < s1.taskRec.length)
    (hSort : List.Pairwise (fun a b => a ≤ b) (s1.writes.map Prod.fst))
    (hLW : s1.latestFrame = (s1.writes.map Prod.snd).getLast?)
    (hCb : ∀ ip ∈ s1.ready, ip.2 = Payload.doneCb → doneAt s1 ip.1 = true) :
    Inv s' := by
  have hlu : ∀ i, luAt s' i = true ↔ i = s1.taskRec.length := by
    intro i
    unfold luAt
    rw [erec, List.getElem?_append]
    by_cases hi : i < s1.taskRec.length
    · have h0 := hNoLive i
      unfold luAt at h0
      simp only [hi, if_true]
      rw [h0]
      simp
      omega
    · by_cases hieq : i = s1.taskRec.length
      · subst hieq
        simp [isDone_notStarted]
      · simp only [hi, if_false]
        rw [List.getElem?_eq_none (by simp; omega)]
        simp
        omega
  constructor
  · intro w hw
    rw [ewrites] at hw
    rw [erec]
    simp only [List.length_append]
    exact Nat.lt_succ_of_lt (hWB w hw)
  · intro i j hi hj
    rw [hlu i] at hi
    rw [hlu j] at hj
    rw [hi, hj]
  · intro i hi w hw
    rw [ewrites] at hw
    rw [hlu i] at hi
    subst hi
    exact Nat.le_of_lt (hWB w hw)
  · intro i hi
    rw [hlu i] at hi
    subst hi
    rw [etasks, hTasks]
    simp
  · rw [ewrites]
    exact hSort
  · rw [elf, ewrites]
    exact hLW
  · intro hvs
    rw [evs] at hvs
    exact Option.noConfusion hvs
  · intro ip hip hcb
    rw [eready] at hip
    simp only [List.mem_append, List.mem_singleton] at hip
    cases hip with
    | inl hin =>
      have hd1 := hCb ip hin hcb
      have hlt := doneAt_lt s1 ip.1 hd1
      unfold doneAt
      rw [erec, List.getElem?_append]
      simp only [hlt, if_true]
      unfold doneAt at hd1
      exact hd1
    | inr hnew =>
      rw [hnew] at hcb
      exact Payload.noConfusion hcb

theorem inv_createVideoStream (track : Track) (s : AgentState) (hInv : Inv s) :
    Inv (createVideoStream track s) := by
  unfold createVideoStream
  by_cases hvs : s.videoStream.isSome
  · simp only [hvs, if_true]
    refine inv_create_aux { cancelAll s.tasks s with tasks := [] } _
      rfl rfl rfl rfl rfl rfl ?_ rfl ?_ ?_ ?_ ?_
    · intro i
      have hcg := luAt_congr (cancelAll s.tasks s)
        { cancelAll s.tasks s with tasks := [] } rfl i
      rw [hcg]
      by_cases hb : luAt (cancelAll s.tasks s) i = true
      · obtain ⟨hl, hnm⟩ := (cancelAll_luAt s.tasks s i).mp hb
        exact absurd (hInv.inTasks i hl) hnm
      · exact Bool.eq_false_iff.mpr hb
    · obtain ⟨_, _, _, _, f5, _, f7⟩ := cancelAll_fields s.tasks s
      intro w hw
      show w.1 < (cancelAll s.tasks s).taskRec.length
      rw [f7]
      exact hInv.writersBound w (f5 ▸ hw)
    · obtain ⟨_, _, _, _, f5, _, _⟩ := cancelAll_fields s.tasks s
      show List.Pairwise _ (((cancelAll s.tasks s).writes).map Prod.fst)
      rw [f5]
      exact hInv.sortedWriters
    · obtain ⟨f1, _, _, _, f5, _, _⟩ := cancelAll_fields s.tasks s
      show (cancelAll s.tasks s).latestFrame
        = (((cancelAll s.tasks s).writes).map Prod.snd).getLast?
      rw [f1, f5]
      exact hInv.lastWrite
    · intro ip hip hcb
      have hsub := cancelAll_ready_sub s.tasks s ip hip
      cases hsub with
      | inl hin =>
        have hd1 := hInv.doneCbOk ip hin hcb
        have hdc := doneAt_congr (cancelAll s.tasks s)
          { cancelAll s.tasks s with tasks := [] } rfl ip.1
        rw [hdc, cancelAll_doneAt s.tasks s ip.1]
        exact hd1
      | inr hcw =>
        rw [hcb] at hcw
        exact Payload.noConfusion hcw
  · simp only [hvs, if_false]
    have hnone : s.videoStream = none := Option.not_isSome_iff_eq_none.mp hvs
    obtain ⟨h1, h2, h3, h4⟩ := hInv.emptyInit hnone
    refine inv_create_aux s _ rfl rfl rfl rfl rfl rfl ?_ h2 ?_ ?_ hInv.lastWrite ?_
    · intro i
      unfold luAt
      rw [h1]
      simp
    · intro w hw
      rw [h3] at hw
      exact absurd hw (List.not_mem_nil w)
    · rw [h3]
      exact List.Pairwise.nil
    · intro ip hip
      rw [h4] at hip
      exact absurd hip (List.not_mem_nil ip)

theorem luAt_doneAt_contra (s : AgentState) (i : Nat)
    (hl : luAt s i = true) (hd : doneAt s i = true) : False := by
  unfold luAt at hl
  unfold doneAt at hd
  cases hx : s.taskRec[i]? with
  | none => rw [hx] at hl; exact absurd hl (by simp)
  | some r =>
    rw [hx] at hl hd
    have h1 : (!isDone r.phase && !r.cancelled) = true := hl
    have h2 : isDone r.phase = true := hd
    rw [h2] at h1
    exact absurd h1 (by simp)

theorem runItem_doneCb (tid : Nat) (s : AgentState) :
    runItem tid Payload.doneCb s = { s with tasks := s.tasks.erase tid } := rfl

theorem runItem_stale_none (tid : Nat) (p : Payload) (s : AgentState)
    (hp : p ≠ Payload.doneCb) (h : s.taskRec[tid]? = none) :
    runItem tid p s = s := by
  cases p <;> first
    | exact absurd rfl hp
    | simp [runItem, h]

theorem runItem_stale_done (tid : Nat) (p : Payload) (s : AgentState) (r : TaskRec)
    (hp : p ≠ Payload.doneCb) (h : s.taskRec[tid]? = some r)
    (hd : isDone r.phase = true) :
    runItem tid p s = s := by
  cases p <;> first
    | exact absurd rfl hp
    | simp [runItem, h, hd]

theorem runItem_cancelled (tid : Nat) (p : Payload) (s : AgentState) (r : TaskRec)
    (hp : p ≠ Payload.doneCb) (h : s.taskRec[tid]? = some r)
    (hd : isDone r.phase = false) (hc : r.cancelled = true) :
    runItem tid p s = finishTask tid TaskPhase.doneCancelled s := by
  cases p <;> first
    | exact absurd rfl hp
    | simp [runItem, h, hd, hc]

theorem runItem_start_some (tid : Nat) (s : AgentState) (r : TaskRec) (st : Nat)
    (h : s.taskRec[tid]? = some r) (hd : isDone r.phase = false)
    (hc : r.cancelled = false) (hvs : s.videoStream = some st) :
    runItem tid Payload.start s
      = { s with taskRec := s.taskRec.set tid { r with phase := TaskPhase.suspended st } } := by
  simp [runItem, h, hd, hc, hvs]

theorem runItem_start_nostream (tid : Nat) (s : AgentState) (r : TaskRec)
    (h : s.taskRec[tid]? = some r) (hd : isDone r.phase = false)
    (hc : r.cancelled = false) (hvs : s.videoStream = none) :
    runItem tid Payload.start s = finishTask tid TaskPhase.doneOk s := by
  simp [runItem, h, hd, hc, hvs]

theorem runItem_frame (tid : Nat) (f : Frame) (s : AgentState) (r : TaskRec) (st : Nat)
    (h : s.taskRec[tid]? = some r) (hd : isDone r.phase = false)
    (hc : r.cancelled = false) (hsus : r.phase = TaskPhase.suspended st) :
    runItem tid (Payload.frame f) s
      = { s with latestFrame := some f, writes := s.writes ++ [(tid, f)] } := by
  simp [runItem, h, hd, hc, hsus, isDone_suspended]

theorem runItem_frame_notsus (tid : Nat) (f : Frame) (s : AgentState) (r : TaskRec)
    (h : s.taskRec[tid]? = some r) (hd : isDone r.phase = false)
    (hc : r.cancelled = false) (hns : ∀ st, r.phase ≠ TaskPhase.suspended st) :
    runItem tid (Payload.frame f) s = s := by
  have hr : r.phase = TaskPhase.notStarted := by
    cases hph : r.phase with
    | notStarted => rfl
    | suspended st => exact absurd hph (by intro hx; exact hns st hx)
    | doneOk => rw [hph] at hd; exact absurd hd (by simp [isDone])
    | doneCancelled => rw [hph] at hd; exact absurd hd (by simp [isDone])
    | doneError => rw [hph] at hd; exact absurd hd (by simp [isDone])
  simp [runItem, h, hd, hc, hr]

theorem runItem_closed (tid : Nat) (s : AgentState) (r : TaskRec)
    (h : s.taskRec[tid]? = some r) (hd : isDone r.phase = false)
    (hc : r.cancelled = false) :
    runItem tid Payload.streamClosed s = finishTask tid TaskPhase.doneOk s := by
  simp [runItem, h, hd, hc]

theorem runItem_error (tid : Nat) (s : AgentState) (r : TaskRec)
    (h : s.taskRec[tid]? = some r) (hd : isDone r.phase = false)
    (hc : r.cancelled = false) :
    runItem tid Payload.streamError s = finishTask tid TaskPhase.doneError s := by
  simp [runItem, h, hd, hc]

theorem runItem_cancelWake (tid : Nat) (s : AgentState) (r : TaskRec)
    (h : s.taskRec[tid]? = some r) (hd : isDone r.phase = false)
    (hc : r.cancelled = false) :
    runItem tid Payload.cancelWake s = finishTask tid TaskPhase.doneCancelled s := by
  simp [runItem, h, hd, hc]

theorem inv_finishTask (tid : Nat) (ph : TaskPhase) (s : AgentState)
    (hph : isDone ph = true) (hInv : Inv s) : Inv (finishTask tid ph s) := by
  cases h : s.taskRec[tid]? with
  | none =>
    rw [finishTask_none tid ph s h]
    exact hInv
  | some r =>
    rw [finishTask_some tid ph s r h]
    have hlu := luAt_set_phase s
      { s with taskRec := s.taskRec.set tid { r with phase := ph }
               ready := s.ready ++ [(tid, Payload.doneCb)] } tid r ph h hph rfl
    have hda := fun i => doneAt_set_phase s
      { s with taskRec := s.taskRec.set tid { r with phase := ph }
               ready := s.ready ++ [(tid, Payload.doneCb)] } tid r ph h hph rfl i
    constructor
    · intro w hw
      show w.1 < (s.taskRec.set tid { r with phase := ph }).length
      rw [List.length_set]
      exact hInv.writersBound w hw
    · intro i j hi hj
      exact hInv.atMostOne i j ((hlu i).mp hi).1 ((hlu j).mp hj).1
    · intro i hi w hw
      exact hInv.dominance i ((hlu i).mp hi).1 w hw
    · intro i hi
      exact hInv.inTasks i ((hlu i).mp hi).1
    · exact hInv.sortedWriters
    · exact hInv.lastWrite
    · intro hvs
      have h0 := hInv.emptyInit hvs
      rw [h0.1] at h
      exact absurd h (by simp)
    · intro ip hip hcbp
      simp only [List.mem_append, List.mem_singleton] at hip
      cases hip with
      | inl hin => exact (hda ip.1).1 (hInv.doneCbOk ip hin hcbp)
      | inr hnew =>
        have : ip.1 = tid := by rw [hnew]
        rw [this]
        exact (hda tid).2

theorem inv_runItem (tid : Nat) (p : Payload) (s : AgentState) (hInv : Inv s)
    (hcb : p = Payload.doneCb → doneAt s tid = true) : Inv (runItem tid p s) := by
  by_cases hp : p = Payload.doneCb
  · subst hp
    rw [runItem_doneCb]
    have hdone := hcb rfl
    constructor
    · exact hInv.writersBound
    · exact hInv.atMostOne
    · exact hInv.dominance
    · intro i hi
      have hi' : luAt s i = true := hi
      have hmem := hInv.inTasks i hi'
      have hne : i ≠ tid := by
        intro he
        subst he
        exact luAt_doneAt_contra s i hi' hdone
      exact show i ∈ s.tasks.erase tid from (List.mem_erase_of_ne hne).mpr hmem
    · exact hInv.sortedWriters
    · exact hInv.lastWrite
    · intro hvs
      have h0 := hInv.emptyInit hvs
      refine ⟨h0.1, ?_, h0.2.2.1, h0.2.2.2⟩
      show s.tasks.erase tid = []
      rw [h0.2.1]
      rfl
    · exact hInv.doneCbOk
  · cases h : s.taskRec[tid]? with
    | none =>
      rw [runItem_stale_none tid p s hp h]
      exact hInv
    | some r =>
      by_cases hd : isDone r.phase
      · rw [runItem_stale_done tid p s r hp h hd]
        exact hInv
      · have hd' : isDone r.phase = false := Bool.eq_false_iff.mpr hd
        by_cases hc : r.cancelled
        · rw [runItem_cancelled tid p s r hp h hd' hc]
          exact inv_finishTask tid TaskPhase.doneCancelled s rfl hInv
        · have hc' : r.cancelled = false := Bool.eq_false_iff.mpr hc
          cases p with
          | doneCb => exact absurd rfl hp
          | start =>
            cases hvs : s.videoStream with
            | none =>
              rw [runItem_start_nostream tid s r h hd' hc' hvs]
              exact inv_finishTask tid TaskPhase.doneOk s rfl hInv
            | some st =>
              rw [runItem_start_some tid s r st h hd' hc' hvs]
              have hlu := luAt_set_suspended s
                { s with taskRec := s.taskRec.set tid { r with phase := TaskPhase.suspended st } }
                tid r st h hd' hc' rfl
              have hda := doneAt_set_suspended s
                { s with taskRec := s.taskRec.set tid { r with phase := TaskPhase.suspended st } }
                tid r st h hd' rfl
              constructor
              · intro w hw
                show w.1 < (s.taskRec.set tid _).length
                rw [List.length_set]
                exact hInv.writersBound w hw
              · intro i j hi hj
                rw [hlu i] at hi
                rw [hlu j] at hj
                exact hInv.atMostOne i j hi hj
              · intro i hi w hw
                rw [hlu i] at hi
                exact hInv.dominance i hi w hw
              · intro i hi
                rw [hlu i] at hi
                exact hInv.inTasks i hi
              · exact hInv.sortedWriters
              · exact hInv.lastWrite
              · intro hvs2
                have : s.videoStream = none := hvs2
                rw [this] at hvs
                exact Option.noConfusion hvs
              · intro ip hip hcbp
                rw [hda ip.1]
                exact hInv.doneCbOk ip hip hcbp
          | frame f =>
            cases hph : r.phase with
            | suspended st =>
              rw [runItem_frame tid f s r st h hd' hc' hph]
              have hlself : luAt s tid = true := by
                unfold luAt
                rw [h]
                simp [hd', hc']
              constructor
              · intro w hw
                simp only [List.mem_append, List.mem_singleton] at hw
                cases hw with
                | inl hin => exact hInv.writersBound w hin
                | inr hnew =>
                  rw [hnew]
                  exact (List.getElem?_eq_some.mp h).1
              · intro i j hi hj
                exact hInv.atMostOne i j hi hj
              · intro i hi w hw
                simp only [List.mem_append, List.mem_singleton] at hw
                cases hw with
                | inl hin => exact hInv.dominance i hi w hin
                | inr hnew =>
                  rw [hnew]
                  have : i = tid := hInv.atMostOne i tid hi hlself
                  rw [this]
              · intro i hi
                exact hInv.inTasks i hi
              · show List.Pairwise (fun a b => a ≤ b) ((s.writes ++ [(tid, f)]).map Prod.fst)
                rw [List.map_append]
                simp only [List.map_cons, List.map_nil]
                rw [List.pairwise_append]
                refine ⟨hInv.sortedWriters, ?_, ?_⟩
                · simp
                · intro a ha b hb
                  simp only [List.mem_singleton] at hb
                  rw [hb]
                  simp only [List.mem_map] at ha
                  obtain ⟨w, hw, hwa⟩ := ha
                  rw [← hwa]
                  exact hInv.dominance tid hlself w hw
              · show some f = ((s.writes ++ [(tid, f)]).map Prod.snd).getLast?
                rw [List.map_append]
                simp only [List.map_cons, List.map_nil]
                rw [List.getLast?_concat]
              · intro hvs2
                have h0 := hInv.emptyInit hvs2
                rw [h0.1] at h
                exact absurd h (by simp)
              · intro ip hip hcbp
                exact hInv.doneCbOk ip hip hcbp
            | notStarted =>
              rw [runItem_frame_notsus tid f s r h hd' hc' (by rw [hph]; intro st hx; exact TaskPhase.noConfusion hx)]
              exact hInv
            | doneOk => rw [hph] at hd'; exact absurd hd' (by simp [isDone])
            | doneCancelled => rw [hph] at hd'; exact absurd hd' (by simp [isDone])
            | doneError => rw [hph] at hd'; exact absurd hd' (by simp [isDone])
          | streamClosed =>
            rw [runItem_closed tid s r h hd' hc']
            exact inv_finishTask tid TaskPhase.doneOk s rfl hInv
          | streamError =>
            rw [runItem_error tid s r h hd' hc']
            exact inv_finishTask tid TaskPhase.doneError s rfl hInv
          | cancelWake =>
            rw [runItem_cancelWake tid s r h hd' hc']
            exact inv_finishTask tid TaskPhase.doneCancelled s rfl hInv

theorem inv_runReady (s : AgentState) (hInv : Inv s) : Inv (runReady s) := by
  unfold runReady
  cases hq : s.ready with
  | nil => exact hInv
  | cons ip0 tl =>
    obtain ⟨tid, p⟩ := ip0
    have hInv' : Inv { s with ready := tl } := by
      constructor
      · exact hInv.writersBound
      · exact hInv.atMostOne
      · exact hInv.dominance
      · exact hInv.inTasks
      · exact hInv.sortedWriters
      · exact hInv.lastWrite
      · intro hvs
        have h0 := hInv.emptyInit hvs
        rw [h0.2.2.2] at hq
        exact List.noConfusion hq
      · intro ip hip hcbp
        have hmem : ip ∈ s.ready := by
          rw [hq]
          exact List.mem_cons_of_mem _ hip
        exact hInv.doneCbOk ip hmem hcbp
    have hstep : Inv (runItem tid p { s with ready := tl }) := by
      apply inv_runItem tid p _ hInv'
      intro hpd
      have hhd : (tid, p) ∈ s.ready := by
        rw [hq]
        exact List.mem_cons_self _ _
      exact hInv.doneCbOk (tid, p) hhd hpd
    exact hstep

theorem waitingTask_empty (s : AgentState) (st : Nat) (h : s.taskRec = []) :
    waitingTask s st = none := by
  unfold waitingTask
  rw [h]
  rfl

theorem payloadOfStreamEv_ne_doneCb (d : StreamEv) :
    payloadOfStreamEv d ≠ Payload.doneCb := by
  cases d <;> simp [payloadOfStreamEv]

theorem inv_deliverStream (st : Nat) (d : StreamEv) (s : AgentState) (hInv : Inv s) :
    Inv (deliverStream st d s) := by
  unfold deliverStream
  cases hw : waitingTask s st with
  | none => exact hInv
  | some tid =>
    show Inv { s with ready := s.ready ++ [(tid, payloadOfStreamEv d)] }
    constructor
    · exact hInv.writersBound
    · exact hInv.atMostOne
    · exact hInv.dominance
    · exact hInv.inTasks
    · exact hInv.sortedWriters
    · exact hInv.lastWrite
    · intro hvs
      have h0 := hInv.emptyInit hvs
      rw [waitingTask_empty s st h0.1] at hw
      exact Option.noConfusion hw
    · intro ip hip hcbp
      simp only [List.mem_append, List.mem_singleton] at hip
      cases hip with
      | inl hin => exact hInv.doneCbOk ip hin hcbp
      | inr hnew =>
        have : ip.2 = payloadOfStreamEv d := by rw [hnew]
        rw [hcbp] at this
        exact absurd this.symm (payloadOfStreamEv_ne_doneCb d)

theorem onEnter_nil (s : AgentState) :
    onEnter { remoteParticipants := [] } s = s := rfl

theorem onEnter_novideo (p : Participant) (rest : List Participant) (s : AgentState)
    (h : videoTracks p = []) :
    onEnter { remoteParticipants := p :: rest } s = s := by
  simp [onEnter, h]

theorem onEnter_video (p : Participant) (rest : List Participant) (s : AgentState)
    (t : Track) (ts : List Track) (h : videoTracks p = t :: ts) :
    onEnter { remoteParticipants := p :: rest } s = createVideoStream t s := by
  simp [onEnter, h]

theorem inv_stepFn (e : Ev) (s : AgentState) (hInv : Inv s) : Inv (stepFn e s) := by
  cases e with
  | enter room =>
    show Inv (onEnter room s)
    obtain ⟨rps⟩ := room
    cases rps with
    | nil => exact hInv
    | cons p rest =>
      cases hvt : videoTracks p with
      | nil =>
        rw [onEnter_novideo p rest s hvt]
        exact hInv
      | cons t ts =>
        rw [onEnter_video p rest s t ts hvt]
        exact inv_createVideoStream t s hInv
  | trackSub t =>
    show Inv (onTrackSubscribed t s)
    unfold onTrackSubscribed
    by_cases hk : t.kind = TrackKind.video
    · simp only [hk, if_pos]
      exact inv_createVideoStream t s hInv
    · simp only [hk, if_neg, if_false]
      exact hInv
  | stream st d => exact inv_deliverStream st d s hInv
  | loopStep => exact inv_runReady s hInv
  | teardown => exact hInv

theorem inv_foldl (evs : List Ev) (s : AgentState) (hInv : Inv s) :
    Inv (evs.foldl (fun s e => stepFn e s) s) := by
  induction evs generalizing s with
  | nil => exact hInv
  | cons e rest ih => exact ih (stepFn e s) (inv_stepFn e s hInv)

theorem inv_run (evs : List Ev) : Inv (run evs) :=
  inv_foldl evs initState inv_initState

theorem finishTask_latestFrame (tid : Nat) (ph : TaskPhase) (s : AgentState) :
    (finishTask tid ph s).latestFrame = s.latestFrame := by
  unfold finishTask
  split <;> rfl

theorem createVideoStream_latestFrame (track : Track) (s : AgentState) :
    (createVideoStream track s).latestFrame = s.latestFrame := by
  unfold createVideoStream
  by_cases hvs : s.videoStream.isSome
  · simp only [hvs, if_true]
    exact (cancelAll_fields s.tasks s).1
  · simp [hvs]

theorem createVideoStream_ingestedTracks (track : Track) (s : AgentState) :
    (createVideoStream track s).ingestedTracks = s.ingestedTracks ++ [track] := by
  unfold createVideoStream
  by_cases hvs : s.videoStream.isSome
  · simp only [hvs, if_true]
    show (cancelAll s.tasks s).ingestedTracks ++ [track] = s.ingestedTracks ++ [track]
    rw [(cancelAll_fields s.tasks s).2.2.2.2.2.1]
  · simp [hvs]

theorem createVideoStream_tasks (track : Track) (s : AgentState) (hInv : Inv s) :
    (createVideoStream track s).tasks = [s.taskRec.length] := by
  unfold createVideoStream
  by_cases hvs : s.videoStream.isSome
  · simp only [hvs, if_true]
    show ([] : List Nat) ++ [(cancelAll s.tasks s).taskRec.length] = [s.taskRec.length]
    rw [(cancelAll_fields s.tasks s).2.2.2.2.2.2]
    rfl
  · simp only [hvs, if_false]
    have hnone : s.videoStream = none := Option.not_isSome_iff_eq_none.mp hvs
    show s.tasks ++ [s.taskRec.length] = [s.taskRec.length]
    rw [(hInv.emptyInit hnone).2.1]
    rfl

theorem runItem_latestFrame (tid : Nat) (p : Payload) (s : AgentState) :
    (runItem tid p s).latestFrame = s.latestFrame
    ∨ ∃ f, (runItem tid p s).latestFrame = some f := by
  by_cases hp : p = Payload.doneCb
  · subst hp
    left
    rfl
  · cases h : s.taskRec[tid]? with
    | none =>
      left
      rw [runItem_stale_none tid p s hp h]
    | some r =>
      by_cases hd : isDone r.phase
      · left
        rw [runItem_stale_done tid p s r hp h hd]
      · have hd' : isDone r.phase = false := Bool.eq_false_iff.mpr hd
        by_cases hc : r.cancelled
        · left
          rw [runItem_cancelled tid p s r hp h hd' hc, finishTask_latestFrame]
        · have hc' : r.cancelled = false := Bool.eq_false_iff.mpr hc
          cases p with
          | doneCb => exact absurd rfl hp
          | start =>
            cases hvs : s.videoStream with
            | none =>
              left
              rw [runItem_start_nostream tid s r h hd' hc' hvs, finishTask_latestFrame]
            | some st =>
              left
              rw [runItem_start_some tid s r st h hd' hc' hvs]
          | frame f =>
            cases hph : r.phase with
            | suspended st =>
              right
              exact ⟨f, by rw [runItem_frame tid f s r st h hd' hc' hph]⟩
            | notStarted =>
              left
              rw [runItem_frame_notsus tid f s r h hd' hc'
                (by rw [hph]; intro st hx; exact TaskPhase.noConfusion hx)]
            | doneOk => rw [hph] at hd'; exact absurd hd' (by simp [isDone])
            | doneCancelled => rw [hph] at hd'; exact absurd hd' (by simp [isDone])
            | doneError => rw [hph] at hd'; exact absurd hd' (by simp [isDone])
          | streamClosed =>
            left
            rw [runItem_closed tid s r h hd' hc', finishTask_latestFrame]
          | streamError =>
            left
            rw [runItem_error tid s r h hd' hc', finishTask_latestFrame]
          | cancelWake =>
            left
            rw [runItem_cancelWake tid s r h hd' hc', finishTask_latestFrame]

theorem latestFrame_persistent (e : Ev) (s : AgentState) :
    (stepFn e s).latestFrame = s.latestFrame
    ∨ ∃ f, (stepFn e s).latestFrame = some f := by
  cases e with
  | enter room =>
    obtain ⟨rps⟩ := room
    cases rps with
    | nil => left; rfl
    | cons p rest =>
      cases hvt : videoTracks p with
      | nil =>
        left
        show (onEnter { remoteParticipants := p :: rest } s).latestFrame = s.latestFrame
        rw [onEnter_novideo p rest s hvt]
      | cons t ts =>
        left
        show (onEnter { remoteParticipants := p :: rest } s).latestFrame = s.latestFrame
        rw [onEnter_video p rest s t ts hvt, createVideoStream_latestFrame]
  | trackSub t =>
    left
    show (onTrackSubscribed t s).latestFrame = s.latestFrame
    unfold onTrackSubscribed
    by_cases hk : t.kind = TrackKind.video
    · rw [if_pos hk, createVideoStream_latestFrame]
    · rw [if_neg hk]
  | stream st d =>
    left
    show (deliverStream st d s).latestFrame = s.latestFrame
    unfold deliverStream
    cases hw : waitingTask s st with
    | none => rfl
    | some tid => rfl
  | loopStep =>
    have hstep : stepFn Ev.loopStep s = runReady s := rfl
    rw [hstep]
    unfold runReady
    cases hq : s.ready with
    | nil => left; rfl
    | cons ip0 tl =>
      obtain ⟨tid, p⟩ := ip0
      cases runItem_latestFrame tid p { s with ready := tl } with
      | inl heq => left; rw [heq]
      | inr hex => right; exact hex
  | teardown => left; rfl

/-- Nonvacuity of the write history: across a track replacement the old
ingest (task 0) and the new ingest (task 1) each complete a write. -/
example : (run writesTrace).writes = [(0, frame5), (1, frame7)] := by decide

/-- C1 (counterexample).  The claim states that at most one ingest task is
alive at any time because `_create_video_stream` cancels AND AWAITS
termination of any prior task before the new task starts.  The code never
awaits: `task.cancel()` only requests cancellation, and the new task is
created immediately afterwards, so right after a back-to-back replacement
the old task (cancel requested but not yet delivered) and the new task are
both un-terminated: two alive ingest tasks. -/
theorem c1_counterexample :
    1 < aliveCount (run [Ev.trackSub vtrackA, Ev.trackSub vtrackB]) := by decide

/-- C1 (amended).  At most one ingest task is alive-and-uncancelled at any
reachable state: replacing the stream cancels every prior task before the
new one is created, but does not await their termination, so a cancelled
prior task may briefly remain alive (it never writes again, see C2). -/
theorem c1_amended (evs : List Ev) (i j : Nat)
    (hi : luAt (run evs) i = true) (hj : luAt (run evs) j = true) : i = j :=
  (inv_run evs).atMostOne i j hi hj

/-- C1 (witness for the amended theorem) at the back-to-back replacement
trace: the sole alive-and-uncancelled task is task 1. -/
theorem c1_amended_witness :
    luAt (run [Ev.trackSub vtrackA, Ev.trackSub vtrackB]) 1 = true ∧ (1 : Nat) = 1 :=
  ⟨by decide,
   c1_amended [Ev.trackSub vtrackA, Ev.trackSub vtrackB] 1 1 (by decide) (by decide)⟩

/-- C2 (confirmed).  Task ids increase in creation order, and in every
reachable state the sequence of slot writes carries nondecreasing task
ids: once a newer ingest has performed its first write, no write of any
older (replaced) ingest ever follows — the old ingest's writes have fully
ceased before the new ingest's first write. -/
theorem c2_no_old_write_after_new (evs : List Ev) :
    List.Pairwise (fun a b => a ≤ b) ((run evs).writes.map Prod.fst) :=
  (inv_run evs).sortedWriters

/-- C3 (counterexample).  The claim states that a completed user turn with
an empty latest-frame slot always gets a fallback advisory content item
appended, never a silent omission.  `on_user_turn_completed` in
`src/agents/vision_agent.py` appends nothing in the empty case (only a
debug log runs): with an empty slot the outgoing message is unchanged. -/
theorem c3_counterexample :
    initState.latestFrame = none
    ∧ (onUserTurnCompletedVision initState { content := [] }).2.content = [] := by decide

/-- C3 (amended).  On a turn with an empty slot, the example-agent variant
appends exactly the fallback advisory string, but the vision-agent variant
appends nothing (silent omission); neither variant changes the agent
state. -/
theorem c3_amended (s : AgentState) (m : ChatMessage) (h : s.latestFrame = none) :
    onUserTurnCompletedExample s m
      = (s, { m with content := m.content ++ [ContentItem.text fallbackAdvisory] })
    ∧ onUserTurnCompletedVision s m = (s, m) := by
  simp [onUserTurnCompletedExample, onUserTurnCompletedVision, h]

/-- C3 (witness for the amended theorem) at the initial state and an empty
message. -/
theorem c3_amended_witness :
    onUserTurnCompletedExample initState { content := [] }
      = (initState, { content := ([] : List ContentItem) ++ [ContentItem.text fallbackAdvisory] })
    ∧ onUserTurnCompletedVision initState { content := [] } = (initState, { content := [] }) :=
  c3_amended initState { content := [] } rfl

/-- C4 (confirmed).  In every reachable state the latest-frame slot holds
exactly the most recently completed write, or nothing when no write has
completed; being a single option-valued slot, it retains no queue of
previous frames.  A turn-boundary read (`on_user_turn_completed`) reads
exactly this field. -/
theorem c4_read_is_last_write (evs : List Ev) :
    (run evs).latestFrame = ((run evs).writes.map Prod.snd).getLast? :=
  (inv_run evs).lastWrite

/-- C5 (confirmed).  On a turn with a non-empty slot holding `f`, both
variants append exactly one image content item carrying `f` verbatim and
leave the agent state (hence the slot) unchanged; running a second turn on
the outputs with no intervening write attaches the same frame again. -/
theorem c5_frame_attached (s : AgentState) (m : ChatMessage) (f : Frame)
    (h : s.latestFrame = some f) :
    onUserTurnCompletedVision s m
      = (s, { m with content := m.content ++ [ContentItem.image f] })
    ∧ onUserTurnCompletedExample s m
      = (s, { m with content := m.content ++ [ContentItem.image f] })
    ∧ (onUserTurnCompletedVision ((onUserTurnCompletedVision s m).1)
        ((onUserTurnCompletedVision s m).2)).2.content
      = m.content ++ [ContentItem.image f, ContentItem.image f] := by
  simp [onUserTurnCompletedVision, onUserTurnCompletedExample, h]

/-- C5 (witness) at a state holding `frame5` and an empty message. -/
theorem c5_frame_attached_witness :
    onUserTurnCompletedVision { initState with latestFrame := some frame5 } { content := [] }
      = ({ initState with latestFrame := some frame5 },
         { content := ([] : List ContentItem) ++ [ContentItem.image frame5] })
    ∧ onUserTurnCompletedExample { initState with latestFrame := some frame5 } { content := [] }
      = ({ initState with latestFrame := some frame5 },
         { content := ([] : List ContentItem) ++ [ContentItem.image frame5] })
    ∧ (onUserTurnCompletedVision
        ((onUserTurnCompletedVision { initState with latestFrame := some frame5 }
          { content := [] }).1)
        ((onUserTurnCompletedVision { initState with latestFrame := some frame5 }
          { content := [] }).2)).2.content
      = ([] : List ContentItem) ++ [ContentItem.image frame5, ContentItem.image frame5] :=
  c5_frame_attached { initState with latestFrame := some frame5 } { content := [] } frame5 rfl

/-- C6 (counterexample).  The claim states that on session teardown the
active ingest task is stopped and the latest-frame slot is cleared back to
empty.  `VisionAssistant` defines no teardown hook and no code in the
repository ever resets `_latest_frame` or cancels the tasks outside
`_create_video_stream`: after teardown from a state with an active ingest
and a held frame, the ingest task is still alive and the slot still holds
its frame. -/
theorem c6_counterexample :
    aliveCount (onSessionTeardown (run c6Trace)) = 1
    ∧ (onSessionTeardown (run c6Trace)).latestFrame = some frame5 := by decide

/-- C6 (amended).  Session teardown runs no agent code (the agent defines
no teardown hook), and no agent event ever clears a non-empty latest-frame
slot — the slot is only overwritten, never emptied; ingest termination at
session end happens only through the underlying stream closing (see C7). -/
theorem c6_amended (e : Ev) (s : AgentState) (h : s.latestFrame ≠ none) :
    onSessionTeardown s = s ∧ (stepFn e s).latestFrame ≠ none := by
  refine ⟨rfl, ?_⟩
  cases latestFrame_persistent e s with
  | inl heq =>
    rw [heq]
    exact h
  | inr hex =>
    obtain ⟨f, hf⟩ := hex
    rw [hf]
    exact fun hx => Option.noConfusion hx

/-- C6 (witness for the amended theorem) at the active-ingest state with a
held frame, under the teardown event. -/
theorem c6_amended_witness :
    onSessionTeardown (run c6Trace) = run c6Trace
    ∧ (stepFn Ev.teardown (run c6Trace)).latestFrame ≠ none :=
  c6_amended Ev.teardown (run c6Trace) (by decide)

/-- C7 (confirmed).  When the frame-event source of a live uncancelled
ingest task errors or closes at the await, the ingest loop terminates:
on close it completes normally, on error the exception propagates out of
`read_stream` and is stored in the completed task, which nothing else ever
awaits or reads.  In both cases the only state change is that task's own
record plus the scheduling of its done callback: the latest-frame slot,
the write history, `self._tasks`, the current stream, the stream counter
and the ingested-track history are all untouched — no error reaches any
other component and no retry of the track is started. -/
theorem c7_source_failure_confined (s : AgentState) (tid : Nat) (r : TaskRec)
    (h : s.taskRec[tid]? = some r) (hd : isDone r.phase = false)
    (hc : r.cancelled = false) :
    runItem tid Payload.streamError s
      = { s with taskRec := s.taskRec.set tid { r with phase := TaskPhase.doneError }
                 ready := s.ready ++ [(tid, Payload.doneCb)] }
    ∧ runItem tid Payload.streamClosed s
      = { s with taskRec := s.taskRec.set tid { r with phase := TaskPhase.doneOk }
                 ready := s.ready ++ [(tid, Payload.doneCb)] } := by
  constructor
  · rw [runItem_error tid s r h hd hc]
    exact finishTask_some tid TaskPhase.doneError s r h
  · rw [runItem_closed tid s r h hd hc]
    exact finishTask_some tid TaskPhase.doneOk s r h

/-- C7 (witness) at the concrete suspended-ingest state `c7State`. -/
theorem c7_source_failure_confined_witness :
    runItem 0 Payload.streamError c7State
      = { c7State with
            taskRec := c7State.taskRec.set 0
              { phase := TaskPhase.doneError, cancelled := false }
            ready := c7State.ready ++ [(0, Payload.doneCb)] }
    ∧ runItem 0 Payload.streamClosed c7State
      = { c7State with
            taskRec := c7State.taskRec.set 0
              { phase := TaskPhase.doneOk, cancelled := false }
            ready := c7State.ready ++ [(0, Payload.doneCb)] } :=
  c7_source_failure_confined c7State 0
    { phase := TaskPhase.suspended 0, cancelled := false }
    (by decide) (by decide) (by decide)

/-- C8 (counterexample).  The claim states that whenever remote
participants with video tracks are present at session entry, the first
discovered remote participant's first video track is selected for ingest.
`on_enter` only ever examines the FIRST remote participant: in a room
whose first participant has no video track while the second one does, a
participant with a video track is present, yet no track at all is selected
— the state is unchanged and no ingest starts. -/
theorem c8_counterexample :
    (c8Room.remoteParticipants.any fun p => !(videoTracks p).isEmpty) = true
    ∧ onEnter c8Room initState = initState := by decide

/-- C8 (amended).  At session entry only the first remote participant is
examined: if its publication list yields at least one qualifying video
track, exactly the first such track is handed to the ingest; if it yields
none, no track is selected even when later participants publish video; and
the outcome never depends on the later participants at all. -/
theorem c8_amended (p : Participant) (rest : List Participant) (s : AgentState) :
    (∀ t ts, videoTracks p = t :: ts →
        onEnter { remoteParticipants := p :: rest } s = createVideoStream t s
        ∧ (createVideoStream t s).ingestedTracks = s.ingestedTracks ++ [t])
    ∧ (videoTracks p = [] → onEnter { remoteParticipants := p :: rest } s = s)
    ∧ onEnter { remoteParticipants := p :: rest } s
        = onEnter { remoteParticipants := [p] } s := by
  refine ⟨?_, ?_, ?_⟩
  · intro t ts hvt
    exact ⟨onEnter_video p rest s t ts hvt, createVideoStream_ingestedTracks t s⟩
  · intro hvt
    exact onEnter_novideo p rest s hvt
  · cases hvt : videoTracks p with
    | nil => rw [onEnter_novideo p rest s hvt, onEnter_novideo p [] s hvt]
    | cons t ts => rw [onEnter_video p rest s t ts hvt, onEnter_video p [] s t ts hvt]

/-- C8 (witness for the amended theorem): with a first participant that
publishes a video track, exactly that track starts the ingest. -/
theorem c8_amended_witness :
    onEnter { remoteParticipants :=
        [ { id := 1, pubs := [{ track := some vtrackB }] },
          { id := 0, pubs := [{ track := some audioTrack }] } ] } initState
      = createVideoStream vtrackB initState :=
  ((c8_amended { id := 1, pubs := [{ track := some vtrackB }] }
      [{ id := 0, pubs := [{ track := some audioTrack }] }] initState).1
    vtrackB [] (by decide)).1

/-- C9 (confirmed).  The `track_subscribed` handler does nothing for a
non-video track: the whole agent state — current video stream, task list,
task records, ready queue and latest-frame slot — is returned unchanged. -/
theorem c9_nonvideo_noop (t : Track) (s : AgentState) (h : t.kind ≠ TrackKind.video) :
    onTrackSubscribed t s = s := by
  unfold onTrackSubscribed
  rw [if_neg h]

/-- C9 (witness) for an audio track at the initial state. -/
theorem c9_nonvideo_noop_witness :
    onTrackSubscribed audioTrack initState = initState :=
  c9_nonvideo_noop audioTrack initState (by decide)

/-- C10 (confirmed).  Immediately after any invocation of
`_create_video_stream` on a reachable state, `self._tasks` is exactly the
one-element list holding the newly created ingest task: the replacement
path first cancels all listed tasks and clears the list before appending,
and on the very first invocation the list is still empty. -/
theorem c10_single_task_after_create (evs : List Ev) (track : Track) :
    (createVideoStream track (run evs)).tasks = [(run evs).taskRec.length] :=
  createVideoStream_tasks track (run evs) (inv_run evs)

end DotSpot
